import Mathlib

/-!
Bybit risk-exposure dashboard: risk arithmetic and request signing.

A shallow embedding of `src/App.jsx` (the per-position risk computation, the
aggregate exposure and the utilisation percentage) and of `src/bybitAPI.js`
(base-URL selection, query canonicalisation and the signature payload).

Number model.  JavaScript numbers are modelled by `JSNumber`: `NaN`, the two infinities and
the finite values.  Finite values are exact rationals, so the propagation of
`NaN` and of the infinities, division by zero, and the behaviour of
`Math.max`, `Math.min` and the comparison operators are those of the
language, while binary64 rounding, overflow of finite results and the sign
of zero are outside the model.
-/

namespace JS

/-- A JavaScript number: `NaN`, `-Infinity`, a finite value or `+Infinity`. -/
inductive JSNumber where
  | nan : JSNumber
  | negInf : JSNumber
  | fin (q : ℚ) : JSNumber
  | posInf : JSNumber
deriving DecidableEq

namespace JSNumber

instance : Inhabited JSNumber := ⟨fin 0⟩

instance (n : Nat) : OfNat JSNumber n := ⟨fin (n : ℚ)⟩

/-- Unary minus. -/
def neg : JSNumber → JSNumber
  | nan => nan
  | negInf => posInf
  | fin q => fin (-q)
  | posInf => negInf

/-- The `+` operator on numbers: opposite infinities add up to `NaN`. -/
def add : JSNumber → JSNumber → JSNumber
  | nan, _ => nan
  | _, nan => nan
  | posInf, negInf => nan
  | negInf, posInf => nan
  | posInf, _ => posInf
  | _, posInf => posInf
  | negInf, _ => negInf
  | _, negInf => negInf
  | fin x, fin y => fin (x + y)

/-- The `-` operator: `a - b` is `a + (-b)`. -/
def sub (a b : JSNumber) : JSNumber := add a (neg b)

/-- The product of an infinity (`+Infinity` when `positive`, `-Infinity`
otherwise) and the finite value `q`: `NaN` for `q = 0`, else the infinity
whose sign is the product of the two signs. -/
def infTimes (positive : Bool) (q : ℚ) : JSNumber :=
  if q = 0 then nan
  else if decide (0 < q) = positive then posInf else negInf

/-- The `*` operator: zero times an infinity is `NaN`. -/
def mul : JSNumber → JSNumber → JSNumber
  | nan, _ => nan
  | _, nan => nan
  | posInf, posInf => posInf
  | posInf, negInf => negInf
  | negInf, posInf => negInf
  | negInf, negInf => posInf
  | posInf, fin y => infTimes true y
  | negInf, fin y => infTimes false y
  | fin x, posInf => infTimes true x
  | fin x, negInf => infTimes false x
  | fin x, fin y => fin (x * y)

/-- The `/` operator: a non-zero finite value over zero is an infinity with
the sign of the dividend, `0 / 0` and the quotient of two infinities are
`NaN`, a finite value over an infinity is zero. -/
def div : JSNumber → JSNumber → JSNumber
  | nan, _ => nan
  | _, nan => nan
  | posInf, fin y => if 0 ≤ y then posInf else negInf
  | negInf, fin y => if 0 ≤ y then negInf else posInf
  | posInf, _ => nan
  | negInf, _ => nan
  | fin _, posInf => fin 0
  | fin _, negInf => fin 0
  | fin x, fin y =>
    if y = 0 then (if x = 0 then nan else if 0 < x then posInf else negInf)
    else fin (x / y)

instance : Add JSNumber := ⟨add⟩
instance : Sub JSNumber := ⟨sub⟩
instance : Mul JSNumber := ⟨mul⟩
instance : Div JSNumber := ⟨div⟩

/-- The `<` operator: false as soon as one side is `NaN`. -/
def lt : JSNumber → JSNumber → Bool
  | nan, _ => false
  | _, nan => false
  | _, negInf => false
  | negInf, _ => true
  | posInf, _ => false
  | fin _, posInf => true
  | fin x, fin y => decide (x < y)

/-- The `<=` operator: false as soon as one side is `NaN`. -/
def le : JSNumber → JSNumber → Bool
  | nan, _ => false
  | _, nan => false
  | negInf, _ => true
  | _, posInf => true
  | _, negInf => false
  | posInf, _ => false
  | fin x, fin y => decide (x ≤ y)

/-- The `>` operator. -/
def gt (a b : JSNumber) : Bool := lt b a

/-- Whether the value is `NaN`. -/
def isNaN : JSNumber → Bool
  | nan => true
  | _ => false

end JSNumber

open JSNumber

namespace Math

/-- The builtin `Math.max` on two arguments: `NaN` if either is `NaN`. -/
def max : JSNumber → JSNumber → JSNumber
  | nan, _ => nan
  | _, nan => nan
  | posInf, _ => posInf
  | _, posInf => posInf
  | negInf, b => b
  | a, negInf => a
  | fin x, fin y => if x ≤ y then fin y else fin x

/-- The builtin `Math.min` on two arguments: `NaN` if either is `NaN`. -/
def min : JSNumber → JSNumber → JSNumber
  | nan, _ => nan
  | _, nan => nan
  | negInf, _ => negInf
  | _, negInf => negInf
  | posInf, b => b
  | a, posInf => a
  | fin x, fin y => if x ≤ y then fin x else fin y

end Math

/-! ### `parseFloat` -/

/-- The characters `parseFloat` skips at the start of its argument: the
white space and line terminator code points of the language. -/
def isStrWhiteSpaceChar (c : Char) : Bool :=
  let n := c.toNat
  n = 0x09 || n = 0x0A || n = 0x0B || n = 0x0C || n = 0x0D || n = 0x20 ||
  n = 0xA0 || n = 0x1680 || (0x2000 ≤ n && n ≤ 0x200A) || n = 0x2028 ||
  n = 0x2029 || n = 0x202F || n = 0x205F || n = 0x3000 || n = 0xFEFF

/-- The natural number written by a list of decimal digits. -/
def natOfDigits (ds : List Char) : Nat :=
  ds.foldl (fun n c => 10 * n + (c.toNat - 48)) 0

/-- What the longest decimal-literal start of a string denotes. -/
inductive ParsedFloat where
  | notANumber : ParsedFloat
  | infinity (negative : Bool) : ParsedFloat
  | decimal (negative : Bool) (mantissa : Nat) (fracDigits : Nat) (exponent : Int) : ParsedFloat
deriving DecidableEq

/-- The exponent part at the head of `cs`: `e` or `E`, an optional sign and
at least one digit; `0` when there is no such part. -/
def parseExponent (cs : List Char) : Int :=
  match cs with
  | [] => 0
  | c :: rest =>
    if c = 'e' || c = 'E' then
      match rest with
      | '-' :: ds =>
        if (ds.takeWhile Char.isDigit).isEmpty then 0
        else -((natOfDigits (ds.takeWhile Char.isDigit) : Nat) : Int)
      | '+' :: ds => ((natOfDigits (ds.takeWhile Char.isDigit) : Nat) : Int)
      | ds => ((natOfDigits (ds.takeWhile Char.isDigit) : Nat) : Int)
    else 0

/-- The unsigned part of a decimal literal: `Infinity`, or digits with an
optional fraction and exponent, at least one digit before the exponent. -/
def parseUnsigned (negative : Bool) (cs : List Char) : ParsedFloat :=
  if cs.take 8 = ['I', 'n', 'f', 'i', 'n', 'i', 't', 'y'] then .infinity negative
  else
    let intDigits := cs.takeWhile Char.isDigit
    let afterInt := cs.dropWhile Char.isDigit
    match afterInt with
    | '.' :: afterDot =>
      let fracDigits := afterDot.takeWhile Char.isDigit
      if intDigits.isEmpty && fracDigits.isEmpty then .notANumber
      else .decimal negative (natOfDigits (intDigits ++ fracDigits)) fracDigits.length
        (parseExponent (afterDot.dropWhile Char.isDigit))
    | _ =>
      if intDigits.isEmpty then .notANumber
      else .decimal negative (natOfDigits intDigits) 0 (parseExponent afterInt)

/-- The syntactic half of `parseFloat`: skip leading white space, read an
optional sign, then the longest decimal literal; what follows is ignored. -/
def parseLiteral (s : String) : ParsedFloat :=
  match s.toList.dropWhile isStrWhiteSpaceChar with
  | '-' :: cs => parseUnsigned true cs
  | '+' :: cs => parseUnsigned false cs
  | cs => parseUnsigned false cs

/-- The value of a parsed literal. -/
def ParsedFloat.toNumber : ParsedFloat → JSNumber
  | .notANumber => nan
  | .infinity negative => if negative then negInf else posInf
  | .decimal negative mantissa fracDigits exponent =>
    let k : Int := exponent - fracDigits
    let magnitude : ℚ :=
      if 0 ≤ k then (mantissa : ℚ) * 10 ^ k.toNat else (mantissa : ℚ) / 10 ^ (-k).toNat
    fin (if negative then -magnitude else magnitude)

/-- A property value as the code reads it: a string, or `none` when the
property is absent (`undefined`). -/
abbrev JSValue := Option String

/-- The string a value is converted to before it is parsed. -/
def toStr : JSValue → String
  | some s => s
  | none => "undefined"

/-- The builtin `parseFloat`. -/
def parseFloat (v : JSValue) : JSNumber :=
  (parseLiteral (toStr v)).toNumber

end JS

/-! ## `src/App.jsx`: the risk computation -/

namespace App

open JS JS.JSNumber

/-- A position as `fetchBybitPositions` hands it to the dashboard. -/
structure Position where
  symbol : JSValue
  side : JSValue
  size : JSValue
  entryPrice : JSValue
  markPrice : JSValue
  unrealizedPnl : JSValue
  stopLoss : JSValue
  leverage : JSValue
  positionValue : JSValue
deriving DecidableEq

/-- A position together with its computed risk exposure
(`{...position, riskExposure}`). -/
structure PositionWithRisk extends Position where
  riskExposure : JSNumber
deriving DecidableEq

/-- The object `fetchBybitPositions` resolves to. -/
structure FetchResult where
  success : Bool
  positions : List Position
  totalPositions : Option Nat
  error : Option String

/-- The state variables of the dashboard component that the handlers below
read or write. -/
structure AppState where
  maxLoss : JSNumber
  positions : List PositionWithRisk
  loading : Bool
  error : Option String
  totalRiskExposure : JSNumber

/-- The initial values given to `useState`. -/
def initialState : AppState :=
  { maxLoss := 1000, positions := [], loading := false, error := some "",
    totalRiskExposure := 0 }

/-- The callback mapped over `result.positions` in `fetchPositions`: parse
mark price, stop-loss and size, take the signed distance to the stop times
the size according to the side, and clamp it below at zero. -/
def positionWithRisk (position : Position) : PositionWithRisk :=
  let currentPrice := parseFloat position.markPrice
  let stopLoss := parseFloat position.stopLoss
  let size := parseFloat position.size
  let riskExposure :=
    if position.side = some "Buy" then (currentPrice - stopLoss) * size
    else (stopLoss - currentPrice) * size
  { toPosition := position, riskExposure := Math.max 0 riskExposure }

/-- The handler `fetchPositions`, from the resolved result of
`fetchBybitPositions` on: on success the positions are enriched and the
exposures are added up from the left, starting at `0`; otherwise the error
of the result is stored. -/
def fetchPositions (st : AppState) (result : FetchResult) : AppState :=
  let st := { st with loading := true, error := some "" }
  let st :=
    if result.success then
      let positionsWithRisk := result.positions.map positionWithRisk
      let total := positionsWithRisk.foldl (fun sum pos => sum + pos.riskExposure) 0
      { st with positions := positionsWithRisk, totalRiskExposure := total }
    else
      { st with error := result.error }
  { st with loading := false }

/-- The expression bound to `riskPercentage`:
`Math.min((totalRiskExposure / maxLoss) * 100, 100)`. -/
def riskPercentage (totalRiskExposure maxLoss : JSNumber) : JSNumber :=
  Math.min ((totalRiskExposure / maxLoss) * 100) 100

/-- The sum of a list of exposures as the specification words it: the first
value plus the sum of the rest, zero for the empty list. -/
def sumOfExposures : List JSNumber → JSNumber
  | [] => 0
  | x :: xs => x + sumOfExposures xs

end App

/-! ## Scenario data -/

namespace App

/-- A long position whose record carries no mark price. -/
def noMarkPrice : Position :=
  { symbol := some "BTCUSDT", side := some "Buy", size := some "1",
    entryPrice := some "98", markPrice := none, unrealizedPnl := some "0",
    stopLoss := some "0.00", leverage := some "10", positionValue := some "100" }

end App

/-! ## `src/bybitAPI.js`: the signing client -/

/-- The fields of a `BybitAPI` instance. -/
structure BybitAPI where
  apiKey : String
  apiSecret : String
  environment : String
  baseUrl : String
  recvWindow : Nat
deriving DecidableEq

namespace BybitAPI

/-- The method `getBaseUrl`: a `switch` over the environment name whose
`default` branch returns the testnet URL. -/
def getBaseUrl (environment : String) : String :=
  if environment = "testnet" then "https://api-testnet.bybit.com"
  else if environment = "demo" then "https://api-demo.bybit.com"
  else if environment = "mainnet" then "https://api.bybit.com"
  else if environment = "mainnet-alt" then "https://api.bytick.com"
  else "https://api-testnet.bybit.com"

/-- The constructor; an omitted `environment` argument defaults to
`'testnet'`. -/
def constructor (apiKey apiSecret : String) (environment : Option String) : BybitAPI :=
  let environment := environment.getD "testnet"
  { apiKey := apiKey, apiSecret := apiSecret, environment := environment,
    baseUrl := getBaseUrl environment, recvWindow := 5000 }

/-- A `params` object: its own properties in the order in which
`Object.keys` lists them, each value given by the string that a template
literal inserts for it. -/
abbrev Params := List (String × String)

/-- The builtins of the cryptography library and of the language that the
client calls: `CryptoJS.HmacSHA256(message, key).toString()` and
`JSON.stringify`. -/
structure Builtins where
  hmacSHA256Hex : String → String → String
  jsonStringify : Params → String

/-- The method `generateSignature`: the HMAC, keyed with the secret, of
timestamp, API key, receive window and parameters written one after the
other. -/
def generateSignature (lib : Builtins) (this : BybitAPI) (timestamp : Nat)
    (params : String) : String :=
  let paramStr := toString timestamp ++ this.apiKey ++ toString this.recvWindow ++ params
  lib.hmacSHA256Hex paramStr this.apiSecret

/-- The UTF-16 code units of a list of characters. -/
def codeUnits : List Char → List Nat
  | [] => []
  | c :: cs =>
    if c.toNat < 0x10000 then c.toNat :: codeUnits cs
    else
      (0xD800 + (c.toNat - 0x10000) / 0x400) ::
        (0xDC00 + (c.toNat - 0x10000) % 0x400) :: codeUnits cs

/-- Lexicographic comparison of code-unit sequences, a proper start of a
sequence coming before the sequence. -/
def unitsLE : List Nat → List Nat → Bool
  | [], _ => true
  | _ :: _, [] => false
  | a :: as, b :: bs => decide (a < b) || (decide (a = b) && unitsLE as bs)

/-- The order in which `Array.prototype.sort` without a comparator puts two
strings: by UTF-16 code units. -/
def keyLE (a b : String) : Prop := unitsLE (codeUnits a.toList) (codeUnits b.toList) = true

instance : DecidableRel keyLE := fun a b =>
  inferInstanceAs (Decidable (unitsLE (codeUnits a.toList) (codeUnits b.toList) = true))

/-- `Object.keys(params)`. -/
def objectKeys (params : Params) : List String := params.map Prod.fst

/-- `Object.keys(params).sort()`. -/
def sortedKeys (params : Params) : List String :=
  (objectKeys params).insertionSort keyLE

/-- The property read `params[key]`, as a template literal prints it. -/
def getProperty (params : Params) (key : String) : String :=
  (params.lookup key).getD "undefined"

/-- The query string that `makeRequest` builds for a GET with parameters:
`Object.keys(params).sort().map(key => key=value).join('&')`. -/
def queryString (params : Params) : String :=
  "&".intercalate ((sortedKeys params).map (fun key => key ++ "=" ++ getProperty params key))

/-- What `makeRequest` passes to `fetch`, together with the signed string. -/
structure Request where
  url : String
  method : String
  headers : List (String × String)
  body : Option String
deriving DecidableEq

/-- The request that `makeRequest` builds at time `timestamp`; `params` is
`none` for the default `null`. -/
def buildRequest (lib : Builtins) (this : BybitAPI) (timestamp : Nat)
    (method endpoint : String) (params : Option Params) : Request :=
  let url := this.baseUrl ++ endpoint
  let (body, queryString) : String × String :=
    match params with
    | some p =>
      if method = "POST" then (lib.jsonStringify p, "")
      else if method = "GET" then ("", queryString p)
      else ("", "")
    | none => ("", "")
  let signaturePayload := if method = "GET" then queryString else body
  let signature := generateSignature lib this timestamp signaturePayload
  let headers :=
    [("X-BAPI-API-KEY", this.apiKey),
     ("X-BAPI-SIGN", signature),
     ("X-BAPI-TIMESTAMP", toString timestamp),
     ("X-BAPI-RECV-WINDOW", toString this.recvWindow),
     ("Content-Type", "application/json")]
  if method = "GET" then
    { url := if params.isSome then url ++ "?" ++ queryString else url,
      method := "GET", headers := headers, body := none }
  else
    { url := url, method := "POST", headers := headers, body := some body }

/-- The string that `buildRequest` hands to the HMAC: the signature computed
with a library whose HMAC returns its message. -/
def signedString (this : BybitAPI) (timestamp : Nat) (method endpoint : String)
    (params : Option Params) (stringify : Params → String) : String :=
  ((buildRequest { hmacSHA256Hex := fun message _ => message, jsonStringify := stringify }
    this timestamp method endpoint params).headers.lookup "X-BAPI-SIGN").getD ""

/-- The parameters `{b: 2, a: 1}` of the canonicalisation example. -/
def exampleParams : Params := [("b", "2"), ("a", "1")]

end BybitAPI

/-! ## `src/bybitAPI.js`: fetching and mapping the positions -/

namespace JS

/-- Truthiness of a property value: an absent property and the empty string
are falsy. -/
def isTruthy : JSValue → Bool
  | none => false
  | some s => decide (s ≠ "")

/-- The expression `value || fallback` with a string literal on the right. -/
def orElse (value : JSValue) (fallback : String) : JSValue :=
  if isTruthy value then value else some fallback

end JS

namespace BybitAPI

open JS JS.JSNumber

/-- A record of the exchange's position list. -/
structure RawPosition where
  symbol : JSValue
  side : JSValue
  size : JSValue
  avgPrice : JSValue
  markPrice : JSValue
  unrealisedPnl : JSValue
  stopLoss : JSValue
  leverage : JSValue
  positionValue : JSValue
deriving DecidableEq

/-- The response envelope of the exchange:
`{retCode, retMsg, result: {list}}`. -/
structure Envelope where
  retCode : Int
  retMsg : JSValue
  list : List RawPosition

/-- What `fetch` resolves to: the `ok` flag, the status and the outcome of
`response.json()`, which is the parsed body or a thrown error. -/
structure HttpResponse (J : Type) where
  ok : Bool
  status : Nat
  json : Except String J

/-- The method `makeRequest` around a given `fetch`: an error thrown by
`fetch` or by `response.json()` is thrown on, a response that is not `ok`
throws an HTTP error, otherwise the parsed body is returned.  An error is
represented by its message. -/
def makeRequest {J : Type} (lib : Builtins) (fetch : Request → Except String (HttpResponse J))
    (this : BybitAPI) (timestamp : Nat) (method endpoint : String)
    (params : Option Params) : Except String J :=
  match fetch (buildRequest lib this timestamp method endpoint params) with
  | .error e => .error e
  | .ok response =>
    if !response.ok then .error ("HTTP error! status: " ++ toString response.status)
    else response.json

/-- The `params` object that `getPositions` builds; `category` is `none`
when the argument is omitted, `symbol` and `settleCoin` are `none` for
`null`. -/
def getPositionsParams (category : Option String) (symbol settleCoin : JSValue) : Params :=
  let category := category.getD "linear"
  let params : Params := [("category", category)]
  if isTruthy symbol then params ++ [("symbol", toStr symbol)]
  else if category = "linear" ∧ isTruthy settleCoin then
    params ++ [("settleCoin", toStr settleCoin)]
  else if category = "linear" then params ++ [("settleCoin", "USDT")]
  else params

/-- The method `getPositions`: a GET of `/v5/position/list` with the
parameters above. -/
def getPositions {J : Type} (lib : Builtins) (fetch : Request → Except String (HttpResponse J))
    (this : BybitAPI) (timestamp : Nat) (category : Option String)
    (symbol settleCoin : JSValue) : Except String J :=
  makeRequest lib fetch this timestamp "GET" "/v5/position/list"
    (some (getPositionsParams category symbol settleCoin))

/-- The filter predicate of `fetchBybitPositions`:
`parseFloat(position.size || '0') > 0`. -/
def isActive (position : RawPosition) : Bool :=
  JSNumber.gt (parseFloat (orElse position.size "0")) 0

/-- The map callback of `fetchBybitPositions`: rename the fields and default
the stop-loss. -/
def mapPosition (position : RawPosition) : App.Position :=
  { symbol := position.symbol,
    side := position.side,
    size := position.size,
    entryPrice := position.avgPrice,
    markPrice := position.markPrice,
    unrealizedPnl := position.unrealisedPnl,
    stopLoss := orElse position.stopLoss "0.00",
    leverage := position.leverage,
    positionValue := position.positionValue }

/-- The function `fetchBybitPositions`: make a client, get the linear USDT
positions, and on `retCode === 0` keep and map the active records; a
non-zero `retCode` throws `API Error: retMsg`, and every thrown error is
caught and returned as a failed result. -/
def fetchBybitPositions (lib : Builtins)
    (fetch : Request → Except String (HttpResponse Envelope)) (timestamp : Nat)
    (apiKey apiSecret : String) (environment : Option String) : App.FetchResult :=
  let client := BybitAPI.constructor apiKey apiSecret environment
  let outcome : Except String App.FetchResult :=
    match getPositions lib fetch client timestamp (some "linear") none (some "USDT") with
    | .error e => .error e
    | .ok response =>
      if response.retCode = 0 then
        let activePositions := (response.list.filter isActive).map mapPosition
        .ok { success := true, positions := activePositions,
              totalPositions := some activePositions.length, error := none }
      else .error ("API Error: " ++ toStr response.retMsg)
  match outcome with
  | .ok result => result
  | .error message =>
    { success := false, error := some message, positions := [], totalPositions := none }

/-- A `fetch` that answers every request with status 200 and the given
parsed body. -/
def respondWith (body : Envelope) : Request → Except String (HttpResponse Envelope) :=
  fun _ => .ok { ok := true, status := 200, json := .ok body }

/-- A library whose functions return the empty string, for examples that do
not depend on the signature. -/
def noLib : Builtins := { hmacSHA256Hex := fun _ _ => "", jsonStringify := fun _ => "" }

/-- A flat record: size `0`. -/
def flatRecord : RawPosition :=
  { symbol := some "BTCUSDT", side := some "Buy", size := some "0",
    avgPrice := some "0", markPrice := some "100", unrealisedPnl := some "0",
    stopLoss := some "", leverage := some "10", positionValue := some "0" }

/-- An open record of size `1.5` without a stop-loss. -/
def openRecord : RawPosition :=
  { symbol := some "ETHUSDT", side := some "Sell", size := some "1.5",
    avgPrice := some "52", markPrice := some "50", unrealisedPnl := some "3",
    stopLoss := some "", leverage := some "10", positionValue := some "75" }

/-- The envelope of the filtering example: a flat record and an open one. -/
def exampleEnvelope : Envelope :=
  { retCode := 0, retMsg := some "OK", list := [flatRecord, openRecord] }

/-- An envelope with the exchange's error code for an invalid API key. -/
def errorEnvelope : Envelope :=
  { retCode := 10003, retMsg := some "API key is invalid.", list := [] }

end BybitAPI

namespace App

/-- A successful fetch result with the single position that has no mark
price. -/
def noMarkPriceResult : FetchResult :=
  { success := true, positions := [noMarkPrice], totalPositions := some 1, error := none }

end App

/-! ## Arithmetic of the number model -/

namespace JS.JSNumber

theorem zero_eq_fin : (0 : JSNumber) = fin 0 := by
  show fin ((0 : Nat) : ℚ) = fin 0
  simp

theorem hundred_eq_fin : (100 : JSNumber) = fin 100 := by
  show fin ((100 : Nat) : ℚ) = fin 100
  simp

theorem fin_mul_fin (x y : ℚ) : fin x * fin y = fin (x * y) := rfl

theorem fin_div_fin (x y : ℚ) (hy : y ≠ 0) : fin x / fin y = fin (x / y) := by
  show div (fin x) (fin y) = _
  simp [div, hy]

theorem plus_comm (a b : JSNumber) : a + b = b + a := by
  show add a b = add b a
  cases a <;> cases b <;> simp [add, add_comm]

theorem plus_assoc (a b c : JSNumber) : a + b + c = a + (b + c) := by
  show add (add a b) c = add a (add b c)
  cases a <;> cases b <;> cases c <;> simp [add, add_assoc]

theorem zero_plus (a : JSNumber) : 0 + a = a := by
  rw [zero_eq_fin]
  show add (fin 0) a = a
  cases a <;> simp [add]

theorem plus_zero (a : JSNumber) : a + 0 = a := by
  rw [plus_comm, zero_plus]

end JS.JSNumber

namespace JS.Math

open JS.JSNumber

end JS.Math

/-! ## Evaluating `parseFloat` on the scenario strings -/

namespace JS

open JS.JSNumber

theorem parseFloat_of_literal (v : JSValue) (p : ParsedFloat)
    (h : parseLiteral (toStr v) = p) : parseFloat v = p.toNumber := by
  simp [parseFloat, h]

theorem parseFloat_1 : parseFloat (some "1") = fin 1 := by
  rw [parseFloat_of_literal _ (.decimal false 1 0 0) (by decide)]
  simp [ParsedFloat.toNumber]

theorem parseFloat_undefined : parseFloat none = nan := by
  rw [parseFloat_of_literal _ .notANumber (by decide)]
  rfl

theorem parseFloat_empty : parseFloat (some "") = nan := by
  rw [parseFloat_of_literal _ .notANumber (by decide)]
  rfl

end JS

/-! ## Per-position exposure -/

namespace App

open JS JS.JSNumber

end App

/-! ## Aggregate exposure and utilisation -/

namespace App

open JS JS.JSNumber

theorem foldl_plus_eq (l : List PositionWithRisk) (a : JSNumber) :
    l.foldl (fun sum pos => sum + pos.riskExposure) a
      = a + sumOfExposures (l.map (fun pos => pos.riskExposure)) := by
  induction l generalizing a with
  | nil => simp [sumOfExposures, plus_zero]
  | cons p ps ih =>
    simp only [List.foldl_cons, List.map_cons, sumOfExposures]
    rw [ih, plus_assoc]

theorem fetchPositions_success (st : AppState) (result : FetchResult)
    (h : result.success = true) :
    (fetchPositions st result).positions = result.positions.map positionWithRisk ∧
    (fetchPositions st result).totalRiskExposure
      = (result.positions.map positionWithRisk).foldl
          (fun sum pos => sum + pos.riskExposure) 0 := by
  simp [fetchPositions, h]

theorem riskPercentage_fin (t q : ℚ) (hq : q ≠ 0) :
    riskPercentage (fin t) (fin q) = fin (if t / q * 100 ≤ 100 then t / q * 100 else 100) := by
  simp only [riskPercentage, fin_div_fin t q hq, hundred_eq_fin, fin_mul_fin, Math.min]
  split_ifs <;> rfl

/-- C5, as stated, fails: with a total of 75 and a maximum loss of -100 the
percentage is -75, and with total and maximum loss both 0 it is `NaN`;
neither lies in `[0, 100]`. -/
theorem riskPercentage_range_counterexample :
    riskPercentage (fin 75) (fin (-100)) = fin (-75) ∧
    JSNumber.le 0 (riskPercentage (fin 75) (fin (-100))) = false ∧
    riskPercentage (fin 0) (fin 0) = nan ∧
    JSNumber.le 0 (riskPercentage (fin 0) (fin 0)) = false := by
  have h1 : riskPercentage (fin 75) (fin (-100)) = fin (-75) := by
    rw [riskPercentage_fin _ _ (by norm_num)]
    norm_num
  have h2 : riskPercentage (fin 0) (fin 0) = nan := by
    simp [riskPercentage, show fin 0 / fin 0 = nan from by show div _ _ = _; simp [div]]
    rfl
  rw [h1, h2, zero_eq_fin]
  refine ⟨rfl, ?_, rfl, rfl⟩
  simp [JSNumber.le]

/-- C5, amended: the percentage never exceeds 100 (it is `NaN` or at most
100 for all inputs), and it lies in `[0, 100]` whenever the total is at
least 0 and the maximum loss is a finite number above 0. -/
theorem riskPercentage_range (total maxLoss : JSNumber) :
    ((riskPercentage total maxLoss).isNaN = true ∨
      JSNumber.le (riskPercentage total maxLoss) 100 = true) ∧
    ∀ q : ℚ, maxLoss = fin q → 0 < q → JSNumber.le 0 total = true →
      JSNumber.le 0 (riskPercentage total maxLoss) = true ∧
      JSNumber.le (riskPercentage total maxLoss) 100 = true := by
  constructor
  · simp only [riskPercentage, hundred_eq_fin]
    cases (total / maxLoss * fin 100) with
    | nan => simp [Math.min, JSNumber.isNaN]
    | negInf => simp [Math.min, JSNumber.le]
    | posInf => simp [Math.min, JSNumber.le]
    | fin x =>
      by_cases h : x ≤ 100
      · simp [Math.min, JSNumber.le, h]
      · simp [Math.min, JSNumber.le, h]
  · intro q hq hpos ht
    subst hq
    rw [zero_eq_fin] at ht ⊢
    rw [hundred_eq_fin]
    cases total with
    | nan => simp [JSNumber.le] at ht
    | negInf => simp [JSNumber.le] at ht
    | posInf =>
      have : riskPercentage posInf (fin q) = fin 100 := by
        simp only [riskPercentage, hundred_eq_fin]
        show Math.min (mul (div posInf (fin q)) (fin 100)) (fin 100) = _
        simp [div, hpos.le, mul, infTimes, Math.min]
      rw [this]
      simp [JSNumber.le]
    | fin t =>
      have ht0 : 0 ≤ t := by simpa [JSNumber.le] using ht
      have hx : 0 ≤ t / q * 100 := by positivity
      rw [riskPercentage_fin t q hpos.ne.symm]
      split_ifs with h
      · simp [JSNumber.le, hx, h]
      · simp [JSNumber.le]

/-- The amended C5 at the scenario: total 75 against a maximum loss of 100. -/
theorem riskPercentage_range_witness :
    JSNumber.le 0 (riskPercentage (fin 75) (fin 100)) = true ∧
    JSNumber.le (riskPercentage (fin 75) (fin 100)) 100 = true :=
  (riskPercentage_range (fin 75) (fin 100)).2 100 rfl (by norm_num)
    (by rw [zero_eq_fin]; simp [JSNumber.le])

end App

namespace App

open JS JS.JSNumber

end App

/-! ## The order on keys -/

namespace BybitAPI

theorem unitsLE_total : ∀ a b : List Nat, unitsLE a b = true ∨ unitsLE b a = true
  | [], _ => Or.inl (by simp [unitsLE])
  | _ :: _, [] => Or.inr (by simp [unitsLE])
  | a :: as, b :: bs => by
    rcases Nat.lt_trichotomy a b with h | h | h
    · left; simp [unitsLE, h]
    · subst h
      rcases unitsLE_total as bs with h' | h'
      · left; simp [unitsLE, h']
      · right; simp [unitsLE, h']
    · right; simp [unitsLE, h]

theorem unitsLE_trans : ∀ a b c : List Nat,
    unitsLE a b = true → unitsLE b c = true → unitsLE a c = true
  | [], _, _ => fun _ _ => by simp [unitsLE]
  | _ :: _, [], _ => fun h _ => by simp [unitsLE] at h
  | _ :: _, _ :: _, [] => fun _ h => by simp [unitsLE] at h
  | a :: as, b :: bs, c :: cs => fun h₁ h₂ => by
    simp only [unitsLE, Bool.or_eq_true, Bool.and_eq_true, decide_eq_true_eq] at h₁ h₂ ⊢
    rcases h₁ with h₁ | ⟨rfl, h₁⟩
    · rcases h₂ with h₂ | ⟨rfl, _⟩
      · exact Or.inl (Nat.lt_trans h₁ h₂)
      · exact Or.inl h₁
    · rcases h₂ with h₂ | ⟨rfl, h₂⟩
      · exact Or.inl h₂
      · exact Or.inr ⟨rfl, unitsLE_trans as bs cs h₁ h₂⟩

theorem unitsLE_antisymm : ∀ a b : List Nat,
    unitsLE a b = true → unitsLE b a = true → a = b
  | [], [] => fun _ _ => rfl
  | [], _ :: _ => fun _ h => by simp [unitsLE] at h
  | _ :: _, [] => fun h _ => by simp [unitsLE] at h
  | a :: as, b :: bs => fun h₁ h₂ => by
    simp only [unitsLE, Bool.or_eq_true, Bool.and_eq_true, decide_eq_true_eq] at h₁ h₂
    rcases h₁ with h₁ | ⟨rfl, h₁⟩
    · rcases h₂ with h₂ | ⟨rfl, _⟩
      · omega
      · omega
    · rcases h₂ with h₂ | ⟨_, h₂⟩
      · omega
      · rw [unitsLE_antisymm as bs h₁ h₂]

theorem char_toNat_valid (c : Char) :
    c.toNat < 0xD800 ∨ (0xDFFF < c.toNat ∧ c.toNat < 0x110000) := c.valid

theorem char_eq_of_toNat_eq {c d : Char} (h : c.toNat = d.toNat) : c = d := by
  apply Char.ext
  apply UInt32.ext
  exact h

theorem codeUnits_injective : ∀ a b : List Char, codeUnits a = codeUnits b → a = b
  | [], [] => fun _ => rfl
  | [], d :: ds => fun h => by
    simp only [codeUnits] at h
    split_ifs at h
  | c :: cs, [] => fun h => by
    simp only [codeUnits] at h
    split_ifs at h
  | c :: cs, d :: ds => fun h => by
    have hc := char_toNat_valid c
    have hd := char_toNat_valid d
    simp only [codeUnits] at h
    split_ifs at h with h₁ h₂ h₂
    · simp only [List.cons.injEq] at h
      rw [char_eq_of_toNat_eq h.1, codeUnits_injective cs ds h.2]
    · simp only [List.cons.injEq] at h
      omega
    · simp only [List.cons.injEq] at h
      omega
    · simp only [List.cons.injEq] at h
      have : c.toNat = d.toNat := by omega
      rw [char_eq_of_toNat_eq this, codeUnits_injective cs ds h.2.2]

theorem keyLE_total : IsTotal String keyLE := ⟨fun _ _ => unitsLE_total _ _⟩

theorem keyLE_trans : IsTrans String keyLE :=
  ⟨fun _ _ _ h₁ h₂ => unitsLE_trans _ _ _ h₁ h₂⟩

theorem keyLE_antisymm : IsAntisymm String keyLE :=
  ⟨fun _ _ h₁ h₂ => by
    have h := codeUnits_injective _ _ (unitsLE_antisymm _ _ h₁ h₂)
    exact String.ext h⟩

end BybitAPI

/-! ## Query canonicalisation -/

namespace BybitAPI

theorem lookup_of_mem : ∀ (p : Params), (objectKeys p).Nodup →
    ∀ k v, (k, v) ∈ p → p.lookup k = some v
  | [], _, _, _, h => by simp at h
  | (k₀, v₀) :: rest, hnd, k, v, h => by
    have hnd' : k₀ ∉ objectKeys rest ∧ (objectKeys rest).Nodup := by
      simpa [objectKeys] using hnd
    rcases List.mem_cons.mp h with heq | hmem
    · cases heq
      simp [List.lookup]
    · have hk : k ∈ objectKeys rest := List.mem_map.mpr ⟨(k, v), hmem, rfl⟩
      have hne : k ≠ k₀ := fun e => hnd'.1 (e ▸ hk)
      have hb : (k == k₀) = false := by simpa using hne
      simp only [List.lookup, hb]
      exact lookup_of_mem rest hnd'.2 k v hmem

theorem getProperty_of_mem (p : Params) (hnd : (objectKeys p).Nodup) (k v : String)
    (h : (k, v) ∈ p) : getProperty p k = v := by
  simp [getProperty, lookup_of_mem p hnd k v h]

/-- The properties of `params` in the order of the sorted keys. -/
theorem sortedPairs_perm (p : Params) (hnd : (objectKeys p).Nodup) :
    ((sortedKeys p).map (fun key => (key, getProperty p key))).Perm p := by
  have h₁ : ((sortedKeys p).map (fun key => (key, getProperty p key))).Perm
      ((objectKeys p).map (fun key => (key, getProperty p key))) :=
    (List.perm_insertionSort keyLE (objectKeys p)).map _
  have h₂ : (objectKeys p).map (fun key => (key, getProperty p key)) = p := by
    simp only [objectKeys, List.map_map]
    conv_rhs => rw [← List.map_id p]
    apply List.map_congr_left
    rintro ⟨k, v⟩ hkv
    simp [getProperty_of_mem p hnd k v hkv]
  exact h₁.trans (List.Perm.of_eq h₂)

theorem sortedKeys_sorted (p : Params) : (sortedKeys p).Sorted keyLE := by
  haveI := keyLE_total
  haveI := keyLE_trans
  exact List.sorted_insertionSort keyLE _

theorem sortedKeys_congr (p₁ p₂ : Params) (hperm : p₁.Perm p₂) :
    sortedKeys p₁ = sortedKeys p₂ := by
  haveI := keyLE_antisymm
  apply List.eq_of_perm_of_sorted (r := keyLE) _ (sortedKeys_sorted p₁) (sortedKeys_sorted p₂)
  exact (List.perm_insertionSort keyLE _).trans
    ((hperm.map Prod.fst).trans (List.perm_insertionSort keyLE _).symm)

theorem getProperty_congr (p₁ p₂ : Params) (hnd : (objectKeys p₁).Nodup)
    (hperm : p₁.Perm p₂) (k : String) (hk : k ∈ objectKeys p₁) :
    getProperty p₁ k = getProperty p₂ k := by
  obtain ⟨⟨k', v⟩, hmem, rfl⟩ := List.mem_map.mp hk
  have hnd₂ : (objectKeys p₂).Nodup := ((hperm.map Prod.fst).nodup_iff).mp hnd
  rw [getProperty_of_mem p₁ hnd k' v hmem,
    getProperty_of_mem p₂ hnd₂ k' v (hperm.subset hmem)]

/-- C8: for a parameter object `p₁` (distinct keys), the query string of a
GET is the `key=value` pairs of `p₁`, joined with `&`, in ascending order of
key (by UTF-16 code units); it is the part of the URL after `?`; and every
object `p₂` with the same properties in another insertion order gives the
same query string. -/
theorem queryString_canonical (p₁ p₂ : Params) (hnd : (objectKeys p₁).Nodup)
    (hperm : p₁.Perm p₂) :
    (∃ pairs : List (String × String), pairs.Perm p₁ ∧
      pairs.Sorted (fun a b => keyLE a.1 b.1) ∧
      queryString p₁ = "&".intercalate (pairs.map (fun kv => kv.1 ++ "=" ++ kv.2))) ∧
    queryString p₁ = queryString p₂ ∧
    ∀ (lib : Builtins) (this : BybitAPI) (timestamp : Nat) (endpoint : String),
      (buildRequest lib this timestamp "GET" endpoint (some p₁)).url
        = this.baseUrl ++ endpoint ++ "?" ++ queryString p₁ := by
  refine ⟨⟨(sortedKeys p₁).map (fun key => (key, getProperty p₁ key)),
    sortedPairs_perm p₁ hnd, ?_, ?_⟩, ?_, ?_⟩
  · exact List.pairwise_map.mpr (sortedKeys_sorted p₁)
  · simp [queryString, List.map_map, Function.comp_def]
  · simp only [queryString, ← sortedKeys_congr p₁ p₂ hperm]
    congr 1
    apply List.map_congr_left
    intro k hk
    have hk' : k ∈ objectKeys p₁ :=
      (List.perm_insertionSort keyLE (objectKeys p₁)).subset hk
    rw [getProperty_congr p₁ p₂ hnd hperm k hk']
  · intro lib this timestamp endpoint
    simp [buildRequest]

/-- The example of C8: `{b: 2, a: 1}` serialises to `a=1&b=2`, as does the
same object with its keys inserted in the other order. -/
theorem queryString_canonical_witness :
    (objectKeys exampleParams).Nodup ∧
    exampleParams.Perm [("a", "1"), ("b", "2")] ∧
    queryString exampleParams = "a=1&b=2" ∧
    queryString [("a", "1"), ("b", "2")] = "a=1&b=2" := by
  have hnd : (objectKeys exampleParams).Nodup := by decide
  have hperm : exampleParams.Perm [("a", "1"), ("b", "2")] := List.Perm.swap _ _ _
  have h := (queryString_canonical exampleParams [("a", "1"), ("b", "2")] hnd hperm).2.1
  refine ⟨hnd, hperm, by decide, ?_⟩
  rw [← h]
  decide

end BybitAPI

/-! ## Signature payload and base URL -/

namespace BybitAPI

theorem toString_recvWindow : toString (5000 : Nat) = "5000" := by decide

/-- C9: for every call, the `X-BAPI-SIGN` header is the HMAC, keyed with the
API secret, of timestamp, API key, `5000` and the canonical parameters
written one after the other, where the canonical parameters are the query
string appended to the URL for a GET and the body that is sent otherwise
(the JSON of the parameters for a POST with parameters).  With timestamp
1700000000000, API key `K` and no parameters the signed string is
`1700000000000K5000`. -/
theorem signature_payload (lib : Builtins) (apiKey apiSecret : String)
    (environment : Option String) (timestamp : Nat) (method endpoint : String)
    (params : Option Params) :
    (∃ canonical : String,
      (buildRequest lib (BybitAPI.constructor apiKey apiSecret environment) timestamp method
          endpoint params).headers.lookup "X-BAPI-SIGN"
        = some (lib.hmacSHA256Hex (toString timestamp ++ apiKey ++ "5000" ++ canonical)
            apiSecret) ∧
      signedString (BybitAPI.constructor apiKey apiSecret environment) timestamp method
          endpoint params lib.jsonStringify
        = toString timestamp ++ apiKey ++ "5000" ++ canonical ∧
      (method = "GET" →
        canonical = (params.map queryString).getD "" ∧
        (buildRequest lib (BybitAPI.constructor apiKey apiSecret environment) timestamp method
            endpoint params).url
          = (if params.isSome
              then getBaseUrl (environment.getD "testnet") ++ endpoint ++ "?" ++ canonical
              else getBaseUrl (environment.getD "testnet") ++ endpoint)) ∧
      (method ≠ "GET" →
        (buildRequest lib (BybitAPI.constructor apiKey apiSecret environment) timestamp method
            endpoint params).body = some canonical ∧
        (method = "POST" → canonical = (params.map lib.jsonStringify).getD ""))) ∧
    signedString (BybitAPI.constructor "K" apiSecret environment) 1700000000000 "GET"
      endpoint none lib.jsonStringify = "1700000000000K5000" := by
  constructor
  · by_cases hget : method = "GET"
    · subst hget
      refine ⟨(params.map queryString).getD "", ?_, ?_, ?_, ?_⟩
      · cases params <;>
          simp [buildRequest, generateSignature, BybitAPI.constructor, List.lookup,
            toString_recvWindow]
      · cases params <;>
          simp [signedString, buildRequest, generateSignature, BybitAPI.constructor,
            List.lookup, toString_recvWindow]
      · intro _
        cases params <;> simp [buildRequest, BybitAPI.constructor]
      · intro h
        exact absurd rfl h
    · by_cases hpost : method = "POST"
      · subst hpost
        refine ⟨(params.map lib.jsonStringify).getD "", ?_, ?_, ?_, ?_⟩
        · cases params <;>
            simp [buildRequest, generateSignature, BybitAPI.constructor, List.lookup,
              toString_recvWindow]
        · cases params <;>
            simp [signedString, buildRequest, generateSignature, BybitAPI.constructor,
              List.lookup, toString_recvWindow]
        · intro h
          exact absurd h hget
        · intro _
          cases params <;> simp [buildRequest]
      · refine ⟨"", ?_, ?_, ?_, ?_⟩
        · cases params <;>
            simp [buildRequest, generateSignature, BybitAPI.constructor, List.lookup,
              toString_recvWindow, hget, hpost]
        · cases params <;>
            simp [signedString, buildRequest, generateSignature, BybitAPI.constructor,
              List.lookup, toString_recvWindow, hget, hpost]
        · intro h
          exact absurd h hget
        · intro _
          refine ⟨?_, fun h => absurd h hpost⟩
          cases params <;> simp [buildRequest, hget, hpost]
  · have h13 : toString (1700000000000 : Nat) = "1700000000000" := by decide
    simp [signedString, buildRequest, generateSignature, BybitAPI.constructor, List.lookup,
      toString_recvWindow, h13]

/-- The example of C9 with a GET of `/v5/account/info` on the default
environment: the signed string and the URL. -/
theorem signature_payload_witness :
    signedString (BybitAPI.constructor "K" "S" none) 1700000000000 "GET"
      "/v5/account/info" none (fun _ => "") = "1700000000000K5000" :=
  (signature_payload ⟨fun message _ => message, fun _ => ""⟩ "K" "S" none 1700000000000 "GET"
    "/v5/account/info" none).2

/-- C10: `getBaseUrl` maps `testnet`, `demo`, `mainnet` and `mainnet-alt` to
their four URLs and every other name to the testnet URL, so the result is one
of the two mainnet URLs exactly when the name is `mainnet` or `mainnet-alt`;
the constructor stores the URL of its environment, `testnet` when none is
given. -/
theorem getBaseUrl_spec (environment : String) :
    getBaseUrl "testnet" = "https://api-testnet.bybit.com" ∧
    getBaseUrl "demo" = "https://api-demo.bybit.com" ∧
    getBaseUrl "mainnet" = "https://api.bybit.com" ∧
    getBaseUrl "mainnet-alt" = "https://api.bytick.com" ∧
    (environment ≠ "testnet" → environment ≠ "demo" → environment ≠ "mainnet" →
      environment ≠ "mainnet-alt" →
      getBaseUrl environment = "https://api-testnet.bybit.com") ∧
    ((getBaseUrl environment = "https://api.bybit.com" ∨
        getBaseUrl environment = "https://api.bytick.com") ↔
      (environment = "mainnet" ∨ environment = "mainnet-alt")) ∧
    (∀ apiKey apiSecret : String,
      (BybitAPI.constructor apiKey apiSecret (some environment)).baseUrl
        = getBaseUrl environment ∧
      (BybitAPI.constructor apiKey apiSecret none).baseUrl
        = "https://api-testnet.bybit.com") := by
  refine ⟨by decide, by decide, by decide, by decide, ?_, ?_, ?_⟩
  · intro h₁ h₂ h₃ h₄
    simp [getBaseUrl, h₁, h₂, h₃, h₄]
  · unfold getBaseUrl
    split_ifs with h₁ h₂ h₃ h₄
    · subst h₁; decide
    · subst h₂; decide
    · subst h₃; decide
    · subst h₄; decide
    · constructor
      · intro h
        rcases h with h | h
        · exact absurd h (by decide)
        · exact absurd h (by decide)
      · rintro (h | h)
        · exact absurd h h₃
        · exact absurd h h₄
  · intro apiKey apiSecret
    exact ⟨rfl, by simp [BybitAPI.constructor, getBaseUrl]⟩

/-- C10 at an unknown environment name: the testnet URL. -/
theorem getBaseUrl_spec_witness :
    getBaseUrl "production" = "https://api-testnet.bybit.com" :=
  (getBaseUrl_spec "production").2.2.2.2.1 (by decide) (by decide) (by decide) (by decide)

end BybitAPI

/-! ## The response mapper -/

namespace JS

open JS.JSNumber

theorem parseFloat_0 : parseFloat (some "0") = fin 0 := by
  rw [parseFloat_of_literal _ (.decimal false 0 0 0) (by decide)]
  simp [ParsedFloat.toNumber]

theorem parseFloat_1_5 : parseFloat (some "1.5") = fin (3 / 2) := by
  rw [parseFloat_of_literal _ (.decimal false 15 1 0) (by decide)]
  simp [ParsedFloat.toNumber]
  norm_num

theorem gt_zero_fin (q : ℚ) : JSNumber.gt (fin q) 0 = decide (0 < q) := by
  rw [zero_eq_fin]
  rfl

theorem orElse_of_falsy (v : JSValue) (fallback : String) (h : v = none ∨ v = some "") :
    orElse v fallback = some fallback := by
  rcases h with rfl | rfl <;> simp [orElse, isTruthy]

theorem orElse_of_nonempty (s fallback : String) (h : s ≠ "") :
    orElse (some s) fallback = some s := by
  simp [orElse, isTruthy, h]

end JS

namespace BybitAPI

open JS JS.JSNumber App

/-- The fallback `'0'` in the filter does not change its verdict: a record is
kept exactly when its own size parses to a number above zero. -/
theorem isActive_eq (r : RawPosition) :
    isActive r = JSNumber.gt (parseFloat r.size) 0 := by
  unfold isActive
  cases hs : r.size with
  | none =>
    rw [orElse_of_falsy none "0" (Or.inl rfl), parseFloat_0, parseFloat_undefined, gt_zero_fin]
    simp [JSNumber.gt, JSNumber.lt, zero_eq_fin]
  | some s =>
    by_cases he : s = ""
    · subst he
      rw [orElse_of_falsy (some "") "0" (Or.inr rfl), parseFloat_0, parseFloat_empty,
        gt_zero_fin]
      simp [JSNumber.gt, JSNumber.lt, zero_eq_fin]
    · rw [orElse_of_nonempty s "0" he]

theorem fetchBybitPositions_of_ok (lib : Builtins)
    (fetch : Request → Except String (HttpResponse Envelope)) (timestamp : Nat)
    (apiKey apiSecret : String) (environment : Option String) (response : Envelope)
    (hresp : getPositions lib fetch (BybitAPI.constructor apiKey apiSecret environment)
      timestamp (some "linear") none (some "USDT") = .ok response) :
    fetchBybitPositions lib fetch timestamp apiKey apiSecret environment =
      if response.retCode = 0 then
        { success := true, positions := (response.list.filter isActive).map mapPosition,
          totalPositions := some ((response.list.filter isActive).map mapPosition).length,
          error := none }
      else
        { success := false, error := some ("API Error: " ++ toStr response.retMsg),
          positions := [], totalPositions := none } := by
  simp only [fetchBybitPositions, hresp]
  split_ifs <;> rfl

theorem fetchBybitPositions_of_error (lib : Builtins)
    (fetch : Request → Except String (HttpResponse Envelope)) (timestamp : Nat)
    (apiKey apiSecret : String) (environment : Option String) (message : String)
    (hresp : getPositions lib fetch (BybitAPI.constructor apiKey apiSecret environment)
      timestamp (some "linear") none (some "USDT") = .error message) :
    fetchBybitPositions lib fetch timestamp apiKey apiSecret environment =
      { success := false, error := some message, positions := [], totalPositions := none } := by
  simp only [fetchBybitPositions, hresp]

theorem getPositions_respondWith (lib : Builtins) (this : BybitAPI) (timestamp : Nat)
    (category : Option String) (symbol settleCoin : JSValue) (body : Envelope) :
    getPositions lib (respondWith body) this timestamp category symbol settleCoin
      = .ok body := by
  simp [getPositions, makeRequest, respondWith]

theorem isActive_flatRecord : isActive flatRecord = false := by
  rw [isActive_eq]
  show JSNumber.gt (parseFloat (some "0")) 0 = false
  rw [parseFloat_0, gt_zero_fin]
  simp

theorem isActive_openRecord : isActive openRecord = true := by
  rw [isActive_eq]
  show JSNumber.gt (parseFloat (some "1.5")) 0 = true
  rw [parseFloat_1_5, gt_zero_fin]
  simp

/-- C11: when the position request resolves to an envelope with
`retCode = 0` and record list `L`, `fetchBybitPositions` succeeds and its
positions are the mapped images of exactly those records of `L` whose size
parses to a number above zero, in the order of `L`; `totalPositions` is the
number of such records.  The list `L` is a value of the embedding and is not
changed. -/
theorem fetchBybitPositions_filter (lib : Builtins)
    (fetch : Request → Except String (HttpResponse Envelope)) (timestamp : Nat)
    (apiKey apiSecret : String) (environment : Option String) (response : Envelope)
    (hresp : getPositions lib fetch (BybitAPI.constructor apiKey apiSecret environment)
      timestamp (some "linear") none (some "USDT") = .ok response)
    (hcode : response.retCode = 0) :
    (fetchBybitPositions lib fetch timestamp apiKey apiSecret environment).success = true ∧
    (fetchBybitPositions lib fetch timestamp apiKey apiSecret environment).positions
      = (response.list.filter (fun r => JSNumber.gt (parseFloat r.size) 0)).map mapPosition ∧
    ((fetchBybitPositions lib fetch timestamp apiKey apiSecret environment).positions).Sublist
      (response.list.map mapPosition) ∧
    (fetchBybitPositions lib fetch timestamp apiKey apiSecret environment).totalPositions
      = some (response.list.countP (fun r => JSNumber.gt (parseFloat r.size) 0)) := by
  have hfun : (fun r => JSNumber.gt (parseFloat r.size) 0) = isActive :=
    funext (fun r => (isActive_eq r).symm)
  rw [fetchBybitPositions_of_ok lib fetch timestamp apiKey apiSecret environment response hresp,
    if_pos hcode, hfun]
  refine ⟨rfl, rfl, ?_, ?_⟩
  · exact (List.filter_sublist _).map mapPosition
  · simp [List.countP_eq_length_filter]

/-- The example of C11: of a record of size `0` and a record of size `1.5`
only the second is returned. -/
theorem fetchBybitPositions_filter_witness :
    exampleEnvelope.retCode = 0 ∧
    (fetchBybitPositions noLib (respondWith exampleEnvelope) 1700000000000 "K" "S" none).positions
      = [mapPosition openRecord] ∧
    (fetchBybitPositions noLib (respondWith exampleEnvelope) 1700000000000 "K" "S"
      none).totalPositions = some 1 := by
  have h := fetchBybitPositions_filter noLib (respondWith exampleEnvelope) 1700000000000 "K" "S"
    none exampleEnvelope (getPositions_respondWith _ _ _ _ _ _ _) rfl
  have hfun : (fun r => JSNumber.gt (parseFloat r.size) 0) = isActive :=
    funext (fun r => (isActive_eq r).symm)
  refine ⟨rfl, ?_, ?_⟩
  · rw [h.2.1, hfun]
    simp [exampleEnvelope, List.filter, isActive_flatRecord, isActive_openRecord]
  · rw [h.2.2.2, hfun]
    simp [exampleEnvelope, List.countP_cons, isActive_flatRecord, isActive_openRecord]

/-- C12: the mapped position takes `entryPrice` from `avgPrice` and
`unrealizedPnl` from `unrealisedPnl`, copies symbol, side, size, mark price,
leverage and position value, and its stop-loss is the record's when that is
a non-empty string and `0.00` when it is absent or empty. -/
theorem mapPosition_fields (r : RawPosition) :
    (mapPosition r).entryPrice = r.avgPrice ∧
    (mapPosition r).unrealizedPnl = r.unrealisedPnl ∧
    (mapPosition r).symbol = r.symbol ∧
    (mapPosition r).side = r.side ∧
    (mapPosition r).size = r.size ∧
    (mapPosition r).markPrice = r.markPrice ∧
    (mapPosition r).leverage = r.leverage ∧
    (mapPosition r).positionValue = r.positionValue ∧
    (∀ s : String, r.stopLoss = some s → s ≠ "" → (mapPosition r).stopLoss = some s) ∧
    (r.stopLoss = none ∨ r.stopLoss = some "" → (mapPosition r).stopLoss = some "0.00") := by
  refine ⟨rfl, rfl, rfl, rfl, rfl, rfl, rfl, rfl, ?_, ?_⟩
  · intro s hs hne
    show orElse r.stopLoss "0.00" = some s
    rw [hs, orElse_of_nonempty s "0.00" hne]
  · intro h
    exact orElse_of_falsy r.stopLoss "0.00" h

/-- C12 at the open record of the example, whose stop-loss is empty. -/
theorem mapPosition_fields_witness :
    (mapPosition openRecord).stopLoss = some "0.00" ∧
    (mapPosition openRecord).entryPrice = some "52" :=
  ⟨(mapPosition_fields openRecord).2.2.2.2.2.2.2.2.2 (Or.inr rfl),
    (mapPosition_fields openRecord).1⟩

/-- C13: when the position request resolves to an envelope whose `retCode` is
not 0, the result has `success = false`, the error `API Error: ` followed by
the envelope's `retMsg`, and no positions; and whenever the result has
`success = true` the request resolved to an envelope with `retCode = 0`. -/
theorem fetchBybitPositions_apiError (lib : Builtins)
    (fetch : Request → Except String (HttpResponse Envelope)) (timestamp : Nat)
    (apiKey apiSecret : String) (environment : Option String) :
    (∀ response : Envelope,
      getPositions lib fetch (BybitAPI.constructor apiKey apiSecret environment)
        timestamp (some "linear") none (some "USDT") = .ok response →
      response.retCode ≠ 0 →
      (fetchBybitPositions lib fetch timestamp apiKey apiSecret environment).success = false ∧
      (fetchBybitPositions lib fetch timestamp apiKey apiSecret environment).error
        = some ("API Error: " ++ toStr response.retMsg) ∧
      (fetchBybitPositions lib fetch timestamp apiKey apiSecret environment).positions = []) ∧
    ((fetchBybitPositions lib fetch timestamp apiKey apiSecret environment).success = true →
      ∃ response : Envelope,
        getPositions lib fetch (BybitAPI.constructor apiKey apiSecret environment)
          timestamp (some "linear") none (some "USDT") = .ok response ∧
        response.retCode = 0) := by
  constructor
  · intro response hresp hcode
    rw [fetchBybitPositions_of_ok lib fetch timestamp apiKey apiSecret environment response
      hresp, if_neg hcode]
    exact ⟨rfl, rfl, rfl⟩
  · intro hs
    cases hresp : getPositions lib fetch (BybitAPI.constructor apiKey apiSecret environment)
        timestamp (some "linear") none (some "USDT") with
    | error message =>
      rw [fetchBybitPositions_of_error lib fetch timestamp apiKey apiSecret environment message
        hresp] at hs
      exact absurd hs (by simp)
    | ok response =>
      refine ⟨response, rfl, ?_⟩
      by_contra hcode
      rw [fetchBybitPositions_of_ok lib fetch timestamp apiKey apiSecret environment response
        hresp, if_neg hcode] at hs
      exact absurd hs (by simp)

/-- C13 at an envelope with `retCode = 10003`: a failed result carrying the
message of the exchange. -/
theorem fetchBybitPositions_apiError_witness :
    errorEnvelope.retCode ≠ 0 ∧
    (fetchBybitPositions noLib (respondWith errorEnvelope) 1700000000000 "K" "S" none).success
      = false ∧
    (fetchBybitPositions noLib (respondWith errorEnvelope) 1700000000000 "K" "S" none).error
      = some "API Error: API key is invalid." := by
  have hne : errorEnvelope.retCode ≠ 0 := by decide
  have h := (fetchBybitPositions_apiError noLib (respondWith errorEnvelope) 1700000000000 "K"
    "S" none).1 errorEnvelope (getPositions_respondWith _ _ _ _ _ _ _) hne
  refine ⟨hne, h.1, ?_⟩
  rw [h.2.1]
  decide

end BybitAPI

/-! ## The parameters of the position request -/

namespace BybitAPI

open JS JS.JSNumber App

/-- C14, as stated, fails: for the category `inverse` with no symbol and the
settle coin `BTC` the parameters hold the category only. -/
theorem getPositionsParams_counterexample :
    getPositionsParams (some "inverse") none (some "BTC") = [("category", "inverse")] ∧
    ("settleCoin", "BTC") ∉ getPositionsParams (some "inverse") none (some "BTC") := by
  constructor <;> decide

/-- C14, amended: the parameters always hold the category (`linear` when
omitted); with a non-empty symbol they hold the symbol and no settle coin;
without a symbol and with category `linear` they hold the given non-empty
settle coin, or `USDT` when none is given; without a symbol and with another
category they hold the category only.  `getPositions` passes them to a GET
of `/v5/position/list`. -/
theorem getPositionsParams_spec (category : Option String) (symbol settleCoin : JSValue) :
    ("category", category.getD "linear") ∈ getPositionsParams category symbol settleCoin ∧
    (∀ s : String, symbol = some s → s ≠ "" →
      getPositionsParams category symbol settleCoin
        = [("category", category.getD "linear"), ("symbol", s)]) ∧
    (isTruthy symbol = false → category.getD "linear" = "linear" →
      ∀ coin : String, settleCoin = some coin → coin ≠ "" →
      getPositionsParams category symbol settleCoin
        = [("category", "linear"), ("settleCoin", coin)]) ∧
    (isTruthy symbol = false → category.getD "linear" = "linear" →
      isTruthy settleCoin = false →
      getPositionsParams category symbol settleCoin
        = [("category", "linear"), ("settleCoin", "USDT")]) ∧
    (isTruthy symbol = false → category.getD "linear" ≠ "linear" →
      getPositionsParams category symbol settleCoin = [("category", category.getD "linear")]) ∧
    (∀ (lib : Builtins) (fetch : Request → Except String (HttpResponse Envelope))
      (this : BybitAPI) (timestamp : Nat),
      getPositions lib fetch this timestamp category symbol settleCoin
        = makeRequest lib fetch this timestamp "GET" "/v5/position/list"
            (some (getPositionsParams category symbol settleCoin))) := by
  refine ⟨?_, ?_, ?_, ?_, ?_, ?_⟩
  · unfold getPositionsParams
    simp only []
    split_ifs <;> simp
  · rintro s rfl hne
    simp [getPositionsParams, isTruthy, hne, toStr]
  · rintro hsym hcat coin rfl hne
    have hcoin : isTruthy (some coin) = true := by simp [isTruthy, hne]
    simp [getPositionsParams, hsym, hcat, hcoin, toStr]
  · intro hsym hcat hcoin
    simp [getPositionsParams, hsym, hcat, hcoin]
  · intro hsym hcat
    simp [getPositionsParams, hsym, hcat]
  · intro lib fetch this timestamp
    rfl

/-- The amended C14 at `getPositions('linear')`: the query string is
`category=linear&settleCoin=USDT`. -/
theorem getPositionsParams_spec_witness :
    queryString (getPositionsParams (some "linear") none none)
      = "category=linear&settleCoin=USDT" := by
  rw [(getPositionsParams_spec (some "linear") none none).2.2.2.1 rfl rfl rfl]
  decide

end BybitAPI

/-! ## Values that do not parse -/

namespace JS.JSNumber

theorem isNaN_iff (a : JSNumber) : a.isNaN = true ↔ a = nan := by
  cases a <;> simp [isNaN]

theorem nan_plus (a : JSNumber) : nan + a = nan := by
  show add nan a = nan
  cases a <;> rfl

theorem plus_nan (a : JSNumber) : a + nan = nan := by
  rw [plus_comm, nan_plus]

theorem nan_minus (a : JSNumber) : nan - a = nan := by
  show add nan (neg a) = nan
  cases a <;> rfl

theorem minus_nan (a : JSNumber) : a - nan = nan := by
  show add a (neg nan) = nan
  cases a <;> rfl

theorem nan_times (a : JSNumber) : nan * a = nan := by
  show mul nan a = nan
  cases a <;> rfl

theorem times_nan (a : JSNumber) : a * nan = nan := by
  show mul a nan = nan
  cases a <;> rfl

end JS.JSNumber

namespace App

open JS JS.JSNumber

theorem max_zero_nan : Math.max 0 nan = nan := by
  rw [zero_eq_fin]
  rfl

theorem riskExposure_nan (position : Position)
    (h : (parseFloat position.markPrice).isNaN = true ∨
      (parseFloat position.stopLoss).isNaN = true ∨
      (parseFloat position.size).isNaN = true) :
    (positionWithRisk position).riskExposure = nan := by
  simp only [isNaN_iff] at h
  simp only [positionWithRisk]
  rcases h with h | h | h <;>
    split_ifs <;>
    simp [h, nan_minus, minus_nan, nan_times, times_nan, max_zero_nan]

theorem sumOfExposures_nan : ∀ l : List JSNumber, nan ∈ l → sumOfExposures l = nan
  | [], h => by simp at h
  | x :: xs, h => by
    rcases List.mem_cons.mp h with heq | hmem
    · rw [← heq, sumOfExposures, nan_plus]
    · rw [sumOfExposures, sumOfExposures_nan xs hmem, plus_nan]

theorem fetchPositions_error_of_success (st : AppState) (result : FetchResult)
    (h : result.success = true) : (fetchPositions st result).error = some "" := by
  simp [fetchPositions, h]

/-- C15, as stated, fails: for the position without a mark price the handler
raises nothing, the error state stays empty, and the exposure and the total
are stored as `NaN`. -/
theorem fetchPositions_unparsed_counterexample :
    (parseFloat noMarkPrice.markPrice).isNaN = true ∧
    (fetchPositions initialState noMarkPriceResult).error = some "" ∧
    (fetchPositions initialState noMarkPriceResult).positions.map (fun pos => pos.riskExposure)
      = [nan] ∧
    (fetchPositions initialState noMarkPriceResult).totalRiskExposure = nan := by
  have hn : (parseFloat noMarkPrice.markPrice).isNaN = true := by
    show (parseFloat none).isNaN = true
    rw [parseFloat_undefined]
    rfl
  have hr : (positionWithRisk noMarkPrice).riskExposure = nan :=
    riskExposure_nan noMarkPrice (Or.inl hn)
  obtain ⟨hp, ht⟩ := fetchPositions_success initialState noMarkPriceResult rfl
  refine ⟨hn, fetchPositions_error_of_success _ _ rfl, ?_, ?_⟩
  · rw [hp]
    simp [noMarkPriceResult, hr]
  · rw [ht, foldl_plus_eq, zero_plus]
    simp [noMarkPriceResult, hr, sumOfExposures, nan_plus]

/-- C15, amended: for a successfully fetched position whose mark price,
stop-loss or size does not parse, no condition is surfaced (the error state
is left empty); the position is stored with the exposure `NaN`, neither zero
nor another number, and the total is `NaN`. -/
theorem fetchPositions_unparsed (st : AppState) (result : FetchResult) (position : Position)
    (hs : result.success = true) (hmem : position ∈ result.positions)
    (hnan : (parseFloat position.markPrice).isNaN = true ∨
      (parseFloat position.stopLoss).isNaN = true ∨
      (parseFloat position.size).isNaN = true) :
    (fetchPositions st result).error = some "" ∧
    (positionWithRisk position).riskExposure = nan ∧
    positionWithRisk position ∈ (fetchPositions st result).positions ∧
    (fetchPositions st result).totalRiskExposure = nan := by
  obtain ⟨hp, ht⟩ := fetchPositions_success st result hs
  have hr := riskExposure_nan position hnan
  refine ⟨fetchPositions_error_of_success st result hs, hr, ?_, ?_⟩
  · rw [hp]
    exact List.mem_map_of_mem _ hmem
  · rw [ht, foldl_plus_eq, zero_plus]
    apply sumOfExposures_nan
    rw [← hr]
    exact List.mem_map.mpr ⟨positionWithRisk position, List.mem_map_of_mem _ hmem, rfl⟩

/-- The amended C15 at the position without a mark price. -/
theorem fetchPositions_unparsed_witness :
    noMarkPriceResult.success = true ∧ noMarkPrice ∈ noMarkPriceResult.positions ∧
    (fetchPositions initialState noMarkPriceResult).error = some "" ∧
    (fetchPositions initialState noMarkPriceResult).totalRiskExposure = nan := by
  have hmem : noMarkPrice ∈ noMarkPriceResult.positions := List.mem_singleton.mpr rfl
  have hn : (parseFloat noMarkPrice.markPrice).isNaN = true := by
    show (parseFloat none).isNaN = true
    rw [parseFloat_undefined]
    rfl
  have h := fetchPositions_unparsed initialState noMarkPriceResult noMarkPrice rfl hmem
    (Or.inl hn)
  exact ⟨rfl, hmem, h.1, h.2.2.2⟩

end App

/-! ## Positions without a stop-loss -/

namespace BybitAPI

open JS JS.JSNumber App

end BybitAPI
